import Mathlib

/-!
Verification development for the conversation-history tutorial repository.

The repository consists of two Jupyter notebooks: one wiring simple integer
tool functions (`multiply`, `add`, `exponentiate`) into an agent executor,
and one demonstrating schema-based extraction (the `Joke` Pydantic model with
its `question_ends_with_question_mark` validator) together with a
Streamlit-backed chat-message history (`StreamlitChatMessageHistory`,
`add_user_message` / `add_ai_message` / `messages`, and a guarded seeding
step).

The specification's central component, the session-scoped
`ConversationHistoryStore`, has no implementation inside the repository —
the notebooks only call into it through the external
`StreamlitChatMessageHistory` class.  Its Lean model below is therefore
modelled from the spec; everything about the tool functions, the `Joke`
validator and the seeding guard is embedded directly from the notebook code.
-/

namespace HistoryStore

/-- Modelled from the spec: the message role enum `{system, human, ai}`
(spec section 3, Data Model).  The concrete store implementation is not in
the repository sources. -/
inductive Role where
  | system : Role
  | human : Role
  | ai : Role
deriving DecidableEq, Repr

/-- Modelled from the spec: a `Message` is
`{ role, content, sequence_index }`, immutable once appended
(spec section 3). -/
structure Message where
  role : Role
  content : String
  sequence_index : Nat
deriving DecidableEq, Repr

/-- Session keys are opaque strings (spec section 3). -/
abbrev SessionKey := String

/-- Modelled from the spec: the store is an in-memory session map from
session key to the session's ordered message sequence (spec sections 4.1
and 6); a session is created lazily, so an untouched key simply maps to the
empty sequence. -/
abbrev Store := SessionKey → List Message

/-- Modelled from the spec: the fresh store, in which no session has ever
been written to. -/
def emptyStore : Store := fun _ => []

/-- Modelled from the spec: `get_messages(session_key)` returns all messages
for the session in arrival order; an unknown key yields the empty sequence
and no error (spec section 4.1). -/
def get_messages (s : Store) (k : SessionKey) : List Message := s k

/-- Modelled from the spec: recognition of the role enum values; any other
role string is invalid (spec section 7, `InvalidRole`). -/
def parseRole (role : String) : Option Role :=
  if role = "system" then some Role.system
  else if role = "human" then some Role.human
  else if role = "ai" then some Role.ai
  else none

/-- Modelled from the spec: the error taxonomy
`{InvalidRole, StorageUnavailable}` (spec section 7). -/
inductive StoreError where
  | invalidRole : StoreError
  | storageUnavailable : StoreError
deriving DecidableEq, Repr

/-- Modelled from the spec: the successful append path —
`append_message` appends the new message at the end of the session's
sequence and assigns it the next sequence index (spec section 4.1). -/
def appendValid (s : Store) (k : SessionKey) (r : Role) (c : String) :
    Store :=
  fun k2 => if k2 = k then s k ++ [⟨r, c, (s k).length⟩] else s k2

/-- Modelled from the spec: `append_message(session_key, role, content)`;
an unrecognized role raises `InvalidRole` without mutating state
(spec sections 4.1 and 7). -/
def append_message (s : Store) (k : SessionKey) (role : String)
    (c : String) : Except StoreError Store :=
  match parseRole role with
  | none => Except.error StoreError.invalidRole
  | some r => Except.ok (appendValid s k r c)

/-- Modelled from the spec: `clear(session_key)` removes all messages for
the session (spec section 4.1). -/
def clear (s : Store) (k : SessionKey) : Store :=
  fun k2 => if k2 = k then [] else s k2

/-- Modelled from the spec: the store's operation alphabet (append or
clear; `get_messages` is read-only and has no state effect). -/
inductive Op where
  | append (key role content : String) : Op
  | clear (key : String) : Op

/-- Modelled from the spec: one operation applied to the store; a failed
append (invalid role) surfaces `InvalidRole` and leaves the store
unchanged (spec section 7). -/
def applyOp (s : Store) : Op → Store × Option StoreError
  | Op.append k role c =>
    match parseRole role with
    | none => (s, some StoreError.invalidRole)
    | some r => (appendValid s k r c, none)
  | Op.clear k => (clear s k, none)

/-- The session key an operation addresses. -/
def opKey : Op → String
  | Op.append k _ _ => k
  | Op.clear k => k

/-- Run a list of operations in order, each one an atomic state
transition; errors leave the state untouched (spec sections 5 and 7). -/
def runOps (s : Store) : List Op → Store
  | [] => s
  | op :: ops => runOps (applyOp s op).1 ops

/-- Run a list of valid appends `(role, content)` to a single session,
serialized in list order (spec section 5: appends to one key are
serialized per session key). -/
def runAppends (s : Store) (k : SessionKey) :
    List (Role × String) → Store
  | [] => s
  | p :: ops => runAppends (appendValid s k p.1 p.2) k ops

/-- The message sequence the spec promises for a run of appends starting
at sequence index `base`: the appended pairs, in order, with consecutive
indices `base, base+1, ...` (spec section 8). -/
def expectedMessages (base : Nat) : List (Role × String) → List Message
  | [] => []
  | p :: ops => ⟨p.1, p.2, base⟩ :: expectedMessages (base + 1) ops

/-- The guarded seeding step of the Streamlit notebook:
`if len(msgs.messages) == 0: msgs.add_ai_message("How can I help you?")`. -/
def seedGreeting (s : Store) (k : SessionKey) : Store :=
  if (get_messages s k).length = 0 then
    appendValid s k Role.ai "How can I help you?"
  else s

end HistoryStore

namespace AgentTools

/-- `def multiply(first_int: int, second_int: int) -> int:
return first_int * second_int` — Python integers are arbitrary precision,
embedded as `Int`. -/
def multiply (first_int second_int : Int) : Int := first_int * second_int

/-- `def add(first_int: int, second_int: int) -> int:
return first_int + second_int`. -/
def add (first_int second_int : Int) : Int := first_int + second_int

/-- `def exponentiate(base: int, exponent: int) -> int:
return base**exponent`.  With the declared `-> int` result type the
exponent is a nonnegative integer (a negative exponent would make Python's
`**` produce a float), so the exponent is embedded as `Nat`. -/
def exponentiate (base : Int) (exponent : Nat) : Int := base ^ exponent

end AgentTools

namespace Extraction

/-- The two Python exceptions the `Joke.setup` validator can raise:
`IndexError` from evaluating `field[-1]` on an empty string, and the
explicit `ValueError`. -/
inductive PyExn where
  | indexError : PyExn
  | valueError (msg : String) : PyExn
deriving DecidableEq, Repr

/-- The `Joke.setup` validator from the extraction notebook:
`if field[-1] != "?": raise ValueError("Badly formed question!");
return field`.  Python evaluates `field[-1]` first, which raises
`IndexError` on the empty string; otherwise it is the last character. -/
def question_ends_with_question_mark (field : String) :
    Except PyExn String :=
  match field.data.getLast? with
  | none => Except.error PyExn.indexError
  | some c =>
    if c ≠ '?' then Except.error (PyExn.valueError "Badly formed question!")
    else Except.ok field

end Extraction

namespace HistoryStore

theorem get_appendValid_self (s : Store) (k : SessionKey) (r : Role)
    (c : String) :
    get_messages (appendValid s k r c) k
      = get_messages s k ++ [⟨r, c, (get_messages s k).length⟩] := by
  simp [get_messages, appendValid]

theorem get_appendValid_other (s : Store) (k k2 : SessionKey) (r : Role)
    (c : String) (h : k2 ≠ k) :
    get_messages (appendValid s k r c) k2 = get_messages s k2 := by
  simp [get_messages, appendValid, h]

theorem get_clear_other (s : Store) (k k2 : SessionKey) (h : k2 ≠ k) :
    get_messages (clear s k) k2 = get_messages s k2 := by
  simp [get_messages, clear, h]

theorem get_runAppends (k : SessionKey) (ops : List (Role × String)) :
    ∀ s : Store,
      get_messages (runAppends s k ops) k
        = get_messages s k
            ++ expectedMessages (get_messages s k).length ops := by
  induction ops with
  | nil => intro s; simp [runAppends, expectedMessages]
  | cons p ops ih =>
    intro s
    rw [runAppends, ih, get_appendValid_self]
    simp [expectedMessages, List.append_assoc]

theorem get_runAppends_other (k k2 : SessionKey) (h : k2 ≠ k)
    (ops : List (Role × String)) :
    ∀ s : Store,
      get_messages (runAppends s k ops) k2 = get_messages s k2 := by
  induction ops with
  | nil => intro s; rfl
  | cons p ops ih =>
    intro s
    rw [runAppends, ih, get_appendValid_other s k k2 p.1 p.2 h]

theorem expectedMessages_length (ops : List (Role × String)) :
    ∀ base, (expectedMessages base ops).length = ops.length := by
  induction ops with
  | nil => intro b; rfl
  | cons p ops ih => intro b; simp [expectedMessages, ih]

theorem expectedMessages_map_index (ops : List (Role × String)) :
    ∀ base,
      (expectedMessages base ops).map (fun m => m.sequence_index)
        = List.range' base ops.length := by
  induction ops with
  | nil => intro b; rfl
  | cons p ops ih =>
    intro b
    simp [expectedMessages, List.range'_succ, ih]

theorem get_applyOp_other (s : Store) (op : Op) (k : SessionKey)
    (h : opKey op ≠ k) :
    get_messages ((applyOp s op).1) k = get_messages s k := by
  cases op with
  | append k1 role c =>
    simp only [opKey] at h
    cases hr : parseRole role with
    | none => simp [applyOp, hr]
    | some r =>
      simp only [applyOp, hr]
      exact get_appendValid_other s k1 k r c (fun e => h e.symm)
  | clear k1 =>
    simp only [opKey] at h
    exact get_clear_other s k1 k (fun e => h e.symm)

theorem get_runOps_untouched (k : SessionKey) (ops : List Op) :
    ∀ s : Store, (∀ op ∈ ops, opKey op ≠ k) →
      get_messages (runOps s ops) k = get_messages s k := by
  induction ops with
  | nil => intro s _; rfl
  | cons op ops ih =>
    intro s h
    rw [runOps, ih (applyOp s op).1 (fun o ho => h o (List.mem_cons_of_mem op ho)),
      get_applyOp_other s op k (h op (List.mem_cons_self op ops))]

end HistoryStore

namespace HistoryStore

/-- Claim C1: for every session key and every finite sequence of
`append_message` calls starting from a fresh store, `get_messages` returns
exactly the appended messages in append order, with sequence indices
`0, 1, 2, ...` strictly increasing from `0`; every appended message stays
visible to every later `get_messages` on the same key; and the concrete
example `append("s1","human","hi!")` then `append("s1","ai","whats up?")`
yields `[{0, human, "hi!"}, {1, ai, "whats up?"}]`. -/
theorem c1_append_order_and_visibility :
    (∀ (k : SessionKey) (ops : List (Role × String)),
      get_messages (runAppends emptyStore k ops) k = expectedMessages 0 ops)
    ∧ (∀ (k : SessionKey) (ops : List (Role × String)),
      (get_messages (runAppends emptyStore k ops) k).map
          (fun m => m.sequence_index)
        = List.range ops.length)
    ∧ (∀ (k : SessionKey) (ops more : List (Role × String)),
      get_messages (runAppends (runAppends emptyStore k ops) k more) k
        = expectedMessages 0 ops ++ expectedMessages ops.length more)
    ∧ get_messages
        (runAppends emptyStore "s1"
          [(Role.human, "hi!"), (Role.ai, "whats up?")]) "s1"
      = [⟨Role.human, "hi!", 0⟩, ⟨Role.ai, "whats up?", 1⟩] := by
  have hbase : ∀ (k : SessionKey) (ops : List (Role × String)),
      get_messages (runAppends emptyStore k ops) k
        = expectedMessages 0 ops := by
    intro k ops
    have h := get_runAppends k ops emptyStore
    simpa [emptyStore, get_messages] using h
  refine ⟨hbase, ?_, ?_, ?_⟩
  · intro k ops
    rw [hbase k ops, expectedMessages_map_index, List.range_eq_range']
  · intro k ops more
    have h := get_runAppends k more (runAppends emptyStore k ops)
    rw [h, hbase k ops, expectedMessages_length]
  · rfl

/-- Claim C2: an `append_message` to session `A` leaves `get_messages` on
any distinct session `B` unchanged — no session ever contains a message
appended under a different key. -/
theorem c2_frame_other_session (s : Store) (a b : SessionKey)
    (role c : String) (s2 : Store) (hne : a ≠ b)
    (hap : append_message s a role c = Except.ok s2) :
    get_messages s2 b = get_messages s b := by
  unfold append_message at hap
  cases hr : parseRole role with
  | none => rw [hr] at hap; exact absurd hap (by simp)
  | some r =>
    rw [hr] at hap
    cases hap
    exact get_appendValid_other s a b r c (fun e => hne e.symm)

/-- Witness for C2 at concrete sessions `"A"` and `"B"`. -/
theorem c2_frame_other_session_witness :
    ("A" : SessionKey) ≠ "B"
    ∧ get_messages (appendValid emptyStore "A" Role.human "hi") "B"
        = get_messages emptyStore "B" :=
  ⟨by decide,
    c2_frame_other_session emptyStore "A" "B" "human" "hi"
      (appendValid emptyStore "A" Role.human "hi") (by decide) rfl⟩

/-- Claim C3: `get_messages` on a never-written key returns the empty
sequence and never signals an error — it is a total function, and any run
of operations that never addresses the key leaves it empty. -/
theorem c3_fresh_key_empty (ops : List Op) (k : SessionKey)
    (h : ∀ op ∈ ops, opKey op ≠ k) :
    get_messages (runOps emptyStore ops) k = []
    ∧ get_messages emptyStore k = [] := by
  refine ⟨?_, rfl⟩
  rw [get_runOps_untouched k ops emptyStore h]
  rfl

/-- Witness for C3: a run touching only session `"A"` leaves `"B"` empty. -/
theorem c3_fresh_key_empty_witness :
    (∀ op ∈ [Op.append "A" "human" "hi", Op.clear "A"], opKey op ≠ "B")
    ∧ get_messages
        (runOps emptyStore [Op.append "A" "human" "hi", Op.clear "A"]) "B"
      = [] :=
  ⟨by decide,
    (c3_fresh_key_empty [Op.append "A" "human" "hi", Op.clear "A"] "B"
      (by decide)).1⟩

/-- Claim C5: for every session key and every prior store state, `clear`
on that key followed by `get_messages` on the same key returns the empty
sequence. -/
theorem c5_clear_then_get_empty (s : Store) (k : SessionKey) :
    get_messages (clear s k) k = [] := by
  simp [get_messages, clear]

end HistoryStore

namespace HistoryStore

/-- Counterexample to claim C4 as stated: `clear` is an operation of the
store, and it does not preserve messages already present — the message
`{human, "hi", 0}` is present before `clear "s"` and absent afterwards. -/
theorem c4_counterexample_clear_removes :
    (Message.mk Role.human "hi" 0)
        ∈ get_messages (appendValid emptyStore "s" Role.human "hi") "s"
    ∧ (Message.mk Role.human "hi" 0)
        ∉ get_messages
            (clear (appendValid emptyStore "s" Role.human "hi") "s") "s" := by
  constructor
  · simp [get_messages, appendValid, emptyStore]
  · simp [get_messages, clear]

/-- Claim C4 (amended): every operation except `clear` preserves the
append-only invariant — an append leaves every session's existing messages
in place, in order, with unchanged role, content and sequence index, and
only extends the addressed session at the end with the next index; a
failed append (invalid role) changes nothing; `clear` empties exactly the
addressed session, leaving every other session untouched. -/
theorem c4_append_only_invariant (s : Store) (k k2 : SessionKey)
    (r : Role) (role c : String) :
    (∃ t, get_messages (appendValid s k r c) k2 = get_messages s k2 ++ t
       ∧ (t = [] ∨ t = [⟨r, c, (get_messages s k).length⟩]))
    ∧ (parseRole role = none → (applyOp s (Op.append k role c)).1 = s)
    ∧ (k2 ≠ k → get_messages (clear s k) k2 = get_messages s k2) := by
  refine ⟨?_, ?_, ?_⟩
  · by_cases hk : k2 = k
    · subst hk
      exact ⟨[⟨r, c, (get_messages s k2).length⟩],
        get_appendValid_self s k2 r c, Or.inr rfl⟩
    · exact ⟨[], by rw [get_appendValid_other s k k2 r c hk, List.append_nil],
        Or.inl rfl⟩
  · intro h
    simp [applyOp, h]
  · intro h
    exact get_clear_other s k k2 h

/-- Witness for the amended C4 at concrete sessions and an invalid role. -/
theorem c4_append_only_invariant_witness :
    parseRole "wizard" = none
    ∧ ("t" : SessionKey) ≠ "s"
    ∧ (applyOp emptyStore (Op.append "s" "wizard" "hi")).1 = emptyStore
    ∧ get_messages (clear emptyStore "s") "t" = get_messages emptyStore "t" :=
  ⟨by decide, by decide,
    (c4_append_only_invariant emptyStore "s" "t" Role.human "wizard" "hi").2.1
      (by decide),
    (c4_append_only_invariant emptyStore "s" "t" Role.human "wizard" "hi").2.2
      (by decide)⟩

/-- Claim C6: appending with a role outside `{system, human, ai}` raises
`InvalidRole` and leaves the entire store state unchanged. -/
theorem c6_invalid_role_rejected (s : Store) (k : SessionKey)
    (role c : String) (h : parseRole role = none) :
    applyOp s (Op.append k role c) = (s, some StoreError.invalidRole)
    ∧ append_message s k role c = Except.error StoreError.invalidRole := by
  constructor <;> simp [applyOp, append_message, h]

/-- Witness for C6 at the unrecognized role string `"wizard"`. -/
theorem c6_invalid_role_rejected_witness :
    parseRole "wizard" = none
    ∧ applyOp emptyStore (Op.append "k" "wizard" "x")
        = (emptyStore, some StoreError.invalidRole)
    ∧ append_message emptyStore "k" "wizard" "x"
        = Except.error StoreError.invalidRole :=
  ⟨by decide, c6_invalid_role_rejected emptyStore "k" "wizard" "x" (by decide)⟩

/-- Claim C7: with appends to one key serialized as the spec requires,
every interleaving of `N` concurrent appends — every order in which the
`N` calls may be applied — leaves the session with exactly `N` messages
whose sequence indices are exactly `0..N-1`, and every intermediate read
sees exactly the complete appends applied so far, never a partial one. -/
theorem c7_concurrent_appends_serialized (k : SessionKey)
    (calls order : List (Role × String)) (hperm : order.Perm calls) :
    (get_messages (runAppends emptyStore k order) k).length = calls.length
    ∧ (get_messages (runAppends emptyStore k order) k).map
        (fun m => m.sequence_index) = List.range calls.length
    ∧ (∀ i, get_messages (runAppends emptyStore k (order.take i)) k
        = expectedMessages 0 (order.take i)) := by
  have hbase : ∀ (ops : List (Role × String)),
      get_messages (runAppends emptyStore k ops) k
        = expectedMessages 0 ops := by
    intro ops
    have h := get_runAppends k ops emptyStore
    simpa [emptyStore, get_messages] using h
  have hlen := hperm.length_eq
  refine ⟨?_, ?_, fun i => hbase (order.take i)⟩
  · rw [hbase order, expectedMessages_length, hlen]
  · rw [hbase order, expectedMessages_map_index, ← hlen,
      List.range_eq_range']

/-- Witness for C7 on a two-call interleaving applied in swapped order. -/
theorem c7_concurrent_appends_serialized_witness :
    List.Perm [(Role.ai, "b"), (Role.human, "a")]
      [(Role.human, "a"), (Role.ai, "b")]
    ∧ (get_messages
        (runAppends emptyStore "s" [(Role.ai, "b"), (Role.human, "a")])
        "s").length = 2
    ∧ (get_messages
        (runAppends emptyStore "s" [(Role.ai, "b"), (Role.human, "a")])
        "s").map (fun m => m.sequence_index) = List.range 2 :=
  ⟨by decide,
    (c7_concurrent_appends_serialized "s"
      [(Role.human, "a"), (Role.ai, "b")]
      [(Role.ai, "b"), (Role.human, "a")] (by decide)).1,
    (c7_concurrent_appends_serialized "s"
      [(Role.human, "a"), (Role.ai, "b")]
      [(Role.ai, "b"), (Role.human, "a")] (by decide)).2.1⟩

end HistoryStore

/-- Claim C8: the tool functions compute exact arbitrary-precision integer
addition, multiplication and exponentiation, and the composition recorded
in the agent trace holds: `exponentiate(3,5) = 243`, `add(12,3) = 15`,
`multiply(243,15) = 3645`, `exponentiate(3645,2) = 13286025`, i.e.
`(3^5 * (12+3))^2 = 13286025`. -/
theorem c8_tool_arithmetic :
    (∀ a b : Int, AgentTools.add a b = a + b)
    ∧ (∀ a b : Int, AgentTools.multiply a b = a * b)
    ∧ (∀ (base : Int) (exp : Nat),
        AgentTools.exponentiate base exp = base ^ exp)
    ∧ AgentTools.exponentiate 3 5 = 243
    ∧ AgentTools.add 12 3 = 15
    ∧ AgentTools.multiply 243 15 = 3645
    ∧ AgentTools.exponentiate 3645 2 = 13286025
    ∧ AgentTools.exponentiate
        (AgentTools.multiply (AgentTools.exponentiate 3 5)
          (AgentTools.add 12 3)) 2 = 13286025 := by
  refine ⟨fun a b => rfl, fun a b => rfl, fun b e => rfl, ?_, ?_, ?_, ?_, ?_⟩
    <;> decide

namespace Extraction

/-- Counterexample to claim C9 as stated: on the empty string the
validator raises `IndexError` from the out-of-bounds `field[-1]`, so it
neither returns the input nor raises the `"Badly formed question!"`
`ValueError`. -/
theorem c9_counterexample_empty_string :
    ¬ (question_ends_with_question_mark "" = Except.ok ""
       ∨ question_ends_with_question_mark ""
           = Except.error (PyExn.valueError "Badly formed question!")) := by
  have h0 : question_ends_with_question_mark ""
      = Except.error PyExn.indexError := rfl
  rw [h0]
  rintro (h | h) <;> simp at h

/-- Claim C9 (amended): for every nonempty string the validator returns
the string exactly when it ends with `'?'` and otherwise raises the
`"Badly formed question!"` `ValueError`; on the empty string the indexing
`field[-1]` is out of bounds and an `IndexError` is raised instead. -/
theorem c9_validator_behavior (s : String) :
    (s.data = [] →
      question_ends_with_question_mark s
        = Except.error PyExn.indexError)
    ∧ (s.data ≠ [] →
      ((question_ends_with_question_mark s = Except.ok s
         ↔ ∃ t, s.data = t ++ ['?'])
       ∧ ((¬ ∃ t, s.data = t ++ ['?']) →
         question_ends_with_question_mark s
           = Except.error (PyExn.valueError "Badly formed question!")))) := by
  cases hl : s.data.getLast? with
  | none =>
    have hnil : s.data = [] := List.getLast?_eq_none_iff.mp hl
    refine ⟨fun _ => ?_, fun hne => absurd hnil hne⟩
    unfold question_ends_with_question_mark
    rw [hl]
  | some c =>
    have hne : s.data ≠ [] := by
      intro h
      rw [h] at hl
      simp at hl
    have hq : question_ends_with_question_mark s
        = if c ≠ '?'
          then Except.error (PyExn.valueError "Badly formed question!")
          else Except.ok s := by
      unfold question_ends_with_question_mark
      rw [hl]
    refine ⟨fun h => absurd h hne, fun _ => ?_⟩
    by_cases hc : c = '?'
    · subst hc
      rw [hq, if_neg (fun h => h rfl)]
      exact ⟨iff_of_true rfl (List.getLast?_eq_some_iff.mp hl),
        fun h => absurd (List.getLast?_eq_some_iff.mp hl) h⟩
    · rw [hq, if_pos hc]
      constructor
      · constructor
        · intro h
          simp at h
        · rintro ⟨t, ht⟩
          have hq2 : s.data.getLast? = some '?' := by
            rw [ht]
            exact List.getLast?_concat t
          rw [hl] at hq2
          exact absurd (Option.some.inj hq2) hc
      · intro _
        rfl

/-- Witness for the amended C9 at the well-formed question `"hi?"`. -/
theorem c9_validator_behavior_witness :
    ("hi?" : String).data ≠ []
    ∧ question_ends_with_question_mark "hi?" = Except.ok "hi?" :=
  ⟨by decide,
    ((c9_validator_behavior "hi?").2 (by decide)).1.mpr
      ⟨['h', 'i'], by decide⟩⟩

end Extraction

namespace HistoryStore

/-- Claim C10: the guarded seeding step (append the AI greeting only when
the session's message list is empty) is idempotent over every starting
store state, and afterwards the session history is non-empty. -/
theorem c10_seed_idempotent_nonempty (s : Store) (k : SessionKey) :
    seedGreeting (seedGreeting s k) k = seedGreeting s k
    ∧ get_messages (seedGreeting s k) k ≠ [] := by
  by_cases h : (get_messages s k).length = 0
  · have h1 : seedGreeting s k
        = appendValid s k Role.ai "How can I help you?" := by
      rw [seedGreeting, if_pos h]
    have hget : get_messages (seedGreeting s k) k
        = get_messages s k ++ [⟨Role.ai, "How can I help you?",
            (get_messages s k).length⟩] := by
      rw [h1]
      exact get_appendValid_self s k Role.ai "How can I help you?"
    constructor
    · conv_lhs => rw [seedGreeting]
      rw [if_neg]
      rw [hget]
      simp
    · rw [hget]
      simp
  · have h1 : seedGreeting s k = s := by rw [seedGreeting, if_neg h]
    constructor
    · rw [h1]
      exact h1
    · rw [h1]
      intro hnil
      exact h (by rw [get_messages] at hnil ⊢; rw [hnil]; rfl)

end HistoryStore
